import Mathlib

/-!
Verification of the `const_list` crate (src/src/lib.rs): a minimal
persistent singly-linked list usable in constant contexts, together with
its forward iterator.  The Rust type `ConstList<'a, T>` wraps
`Option<ConstListItem<'a, T>>`, where a node pairs one element (`first`)
with a reference to the remainder (`rest`).  In this shallow embedding
references collapse to values, so the type becomes an ordinary inductive
list; every operation below is translated clause by clause from the
source.
-/

/-- Shallow embedding of `ConstList<'a, T>`: `nil` models `ConstList(None)`
and `cons first rest` models `ConstList(Some(ConstListItem { first, rest }))`. -/
inductive ConstList (T : Type) : Type where
  | nil : ConstList T
  | cons (first : T) (rest : ConstList T) : ConstList T
deriving DecidableEq, Repr

/-- `ConstList::new`: creates a new, empty list (`Self(None)`). -/
def ConstList.new {T : Type} : ConstList T := ConstList.nil

/-- `ConstList::get`: if the list is non-empty, return the head when
`index == 0`, otherwise recurse into `rest` with `index - 1`; on the
empty list return `None`. -/
def ConstList.get {T : Type} : ConstList T → Nat → Option T
  | ConstList.nil, _ => none
  | ConstList.cons first rest, index =>
      if index = 0 then some first else rest.get (index - 1)

/-- `ConstList::len`: `value.rest.len() + 1` on a node, `0` on the empty list. -/
def ConstList.len {T : Type} : ConstList T → Nat
  | ConstList.nil => 0
  | ConstList.cons _ rest => rest.len + 1

/-- `ConstList::is_empty`: `self.0.is_none()`. -/
def ConstList.is_empty {T : Type} : ConstList T → Bool
  | ConstList.nil => true
  | ConstList.cons _ _ => false

/-- `ConstList::push`: produces a new head node holding `value` whose
`rest` is the pushed-onto list; the original list is not changed. -/
def ConstList.push {T : Type} (l : ConstList T) (value : T) : ConstList T :=
  ConstList.cons value l

/-- `ConstList::pop`: on a node, the head element and the remainder; on
the empty list, `(None, self)`. -/
def ConstList.pop {T : Type} : ConstList T → Option T × ConstList T
  | ConstList.nil => (none, ConstList.nil)
  | ConstList.cons first rest => (some first, rest)

/-- `ConstListIterator`: the iterator state, a single field `target`
holding the current list head. -/
structure ConstListIterator (T : Type) : Type where
  target : ConstList T
deriving DecidableEq, Repr

/-- `ConstList::iter`: `ConstListIterator { target: self }`. -/
def ConstList.iter {T : Type} (l : ConstList T) : ConstListIterator T :=
  ConstListIterator.mk l

/-- `Iterator::next` for `ConstListIterator`: pop the target, store the
remainder back into the iterator, and yield the popped element.  The
returned pair is (yielded element, iterator state after the call). -/
def ConstListIterator.next {T : Type} (it : ConstListIterator T) :
    Option T × ConstListIterator T :=
  ((it.target.pop).1, ConstListIterator.mk (it.target.pop).2)

/-- The iterator state after `n` calls to `next`. -/
def ConstListIterator.nextN {T : Type} : ConstListIterator T → Nat → ConstListIterator T
  | it, 0 => it
  | it, n + 1 => ConstListIterator.nextN (it.next).2 n

/-- The list of elements produced by repeatedly calling `next` until it
yields nothing, with an explicit fuel bound on the number of calls; this
models driving the iterator with a host-language loop. -/
def ConstListIterator.collect {T : Type} : Nat → ConstListIterator T → List T
  | 0, _ => []
  | fuel + 1, it =>
      match it.next with
      | (none, _) => []
      | (some x, it2) => x :: ConstListIterator.collect fuel it2

/-- `Iterator::count` for `ConstListIterator`: the number of `next` calls
that yield an element.  The lemma `count_eq_next` below certifies that
this definition agrees with the standard-library behaviour of calling
`next` repeatedly until it returns nothing. -/
def ConstListIterator.count {T : Type} : ConstListIterator T → Nat
  | ConstListIterator.mk ConstList.nil => 0
  | ConstListIterator.mk (ConstList.cons _ rest) =>
      ConstListIterator.count (ConstListIterator.mk rest) + 1

/-- `ConstList::get` with an explicit bound on the recursion depth: each
recursive call consumes one unit of fuel, and running out of fuel is the
outer `none`.  Used to express termination of `get`. -/
def ConstList.getFuel {T : Type} : Nat → ConstList T → Nat → Option (Option T)
  | 0, _, _ => none
  | fuel + 1, l, index =>
      match l with
      | ConstList.nil => some none
      | ConstList.cons first rest =>
          if index = 0 then some (some first) else ConstList.getFuel fuel rest (index - 1)

/-- The three-element list of the crate documentation:
`ConstList::new().push(2).push(4).push(8)`. -/
def myList : ConstList Nat :=
  ((ConstList.new.push 2).push 4).push 8

/-- The shared list `A = new().push(1).push(2)` of the sharing test. -/
def listA : ConstList Nat := (ConstList.new.push 1).push 2

/-- The derived list `B = A.push(3)` of the sharing test. -/
def listB : ConstList Nat := listA.push 3

/-- The derived list `C = A.push(4)` of the sharing test. -/
def listC : ConstList Nat := listA.push 4

/- Helper lemmas shared between the claim theorems. -/

/-- `count` computed by one call to `next`: zero when `next` yields
nothing, one more than the count of the successor state otherwise. -/
theorem ConstListIterator.count_eq_next {T : Type} (it : ConstListIterator T) :
    it.count =
      match it.next with
      | (none, _) => 0
      | (some _, it2) => it2.count + 1 := by
  obtain ⟨t⟩ := it
  cases t <;> simp [ConstListIterator.count, ConstListIterator.next, ConstList.pop]

/-- The element yielded by the `(i+1)`-st call to `next` on a fresh
iterator is exactly `get i`. -/
theorem ConstListIterator.yield_eq_get {T : Type} (L : ConstList T) (i : Nat) :
    (((ConstList.iter L).nextN i).next).1 = L.get i := by
  induction i generalizing L with
  | zero =>
      cases L <;> rfl
  | succ n ih =>
      cases L with
      | nil =>
          have h : (((ConstList.iter (ConstList.nil : ConstList T)).next).2) =
              ConstList.iter (ConstList.nil : ConstList T) := rfl
          show (((ConstList.iter (ConstList.nil : ConstList T)).next.2.nextN n).next).1 = _
          rw [h, ih]
          rfl
      | cons f r =>
          show ((((ConstList.iter (ConstList.cons f r)).next).2.nextN n).next).1 = _
          have h : ((ConstList.iter (ConstList.cons f r)).next).2 = ConstList.iter r := rfl
          rw [h, ih]
          simp [ConstList.get]

/-- `get` yields an element exactly on indices below the length. -/
theorem ConstList.get_isSome_iff {T : Type} (L : ConstList T) (i : Nat) :
    (L.get i).isSome ↔ i < L.len := by
  induction L generalizing i with
  | nil => simp [ConstList.get, ConstList.len]
  | cons f r ih =>
      cases i with
      | zero => simp [ConstList.get, ConstList.len]
      | succ n =>
          simp only [ConstList.get, ConstList.len, Nat.succ_ne_zero, if_false,
            Nat.succ_sub_one]
          rw [ih]
          omega

/-- C1: push then pop round-trips: for every list `L` and value `v`,
`L.push(v).pop()` is `(Some(v), L)`. -/
theorem push_pop_roundtrip {T : Type} (L : ConstList T) (v : T) :
    (L.push v).pop = (some v, L) := rfl

/-- C2: for every list `L` and valid index `i < L.len()`, `L.get(i)` is
the i-th element (zero-based, head-first) yielded by iterating `L` with
`iter()`, i.e. the element produced by the `(i+1)`-st call to `next`. -/
theorem get_eq_iter_yield {T : Type} (L : ConstList T) (i : Nat) (h : i < L.len) :
    L.get i = (((ConstList.iter L).nextN i).next).1 :=
  (ConstListIterator.yield_eq_get L i).symm

/-- Witness for C2 at the concrete list `[2, 1]` and index `1`. -/
theorem get_eq_iter_yield_witness :
    1 < listA.len ∧ listA.get 1 = (((ConstList.iter listA).nextN 1).next).1 :=
  ⟨by decide, get_eq_iter_yield listA 1 (by decide)⟩

/-- C3: pushing 2, 4, 8 (in that order) onto the empty list yields a
list iterating as `[8, 4, 2]`, with `get 0 = 8`, `get 2 = 2`, and
`get 3` absent. -/
theorem example_list_order :
    ConstListIterator.collect 10 (ConstList.iter myList) = [8, 4, 2] ∧
    myList.get 0 = some 8 ∧ myList.get 2 = some 2 ∧ myList.get 3 = none :=
  ⟨rfl, rfl, rfl, rfl⟩

/-- C4: for every list `L`, `L.len()` equals the number of elements
yielded by iterating `L` to exhaustion, `L.iter().count()`. -/
theorem len_eq_iter_count {T : Type} (L : ConstList T) :
    (ConstList.iter L).count = L.len := by
  induction L with
  | nil => simp [ConstList.iter, ConstListIterator.count, ConstList.len]
  | cons f r ih =>
      have h2 : (ConstListIterator.mk (ConstList.cons f r)).count
          = (ConstListIterator.mk r).count + 1 := by
        simp [ConstListIterator.count]
      show (ConstListIterator.mk (ConstList.cons f r)).count = r.len + 1
      rw [h2]
      exact congrArg (fun n => n + 1) ih

/-- C5: for every list `L` and index `i >= L.len()`, `L.get(i)` is
`none`; out-of-range access is an ordinary absent result, and in the
embedding `get` is a total function, so it never terminates abnormally. -/
theorem get_out_of_range {T : Type} (L : ConstList T) (i : Nat) (h : L.len ≤ i) :
    L.get i = none := by
  induction L generalizing i with
  | nil => rfl
  | cons f r ih =>
      have hi : ¬ i = 0 := by
        simp [ConstList.len] at h
        omega
      simp only [ConstList.get, if_neg hi]
      apply ih
      simp [ConstList.len] at h
      omega

/-- Witness for C5 at the concrete list `[2, 1]` and index `5`. -/
theorem get_out_of_range_witness :
    listA.len ≤ 5 ∧ listA.get 5 = none :=
  ⟨by decide, get_out_of_range listA 5 (by decide)⟩

/-- C6: popping the empty list, any number of times, yields
`(none, empty)`: the remainder returned by `pop` on the empty list is the
empty list itself, so iterating the pop-remainder any number of times
starting from the empty list leaves it empty and popping it again still
yields `(none, empty)`. -/
theorem pop_empty_idempotent (T : Type) (n : Nat) :
    ConstList.pop ((fun (l : ConstList T) => (ConstList.pop l).2)^[n] ConstList.nil)
      = (none, ConstList.nil) := by
  have h : (fun (l : ConstList T) => (ConstList.pop l).2) ConstList.nil = ConstList.nil := rfl
  rw [Function.iterate_fixed h n]
  rfl

/-- C7: push does not change the list it is applied to: in general the
tail of `L.push v` is `L` itself, and for `A = new().push(1).push(2)`,
`B = A.push(3)`, `C = A.push(4)`, the tails of both `B` and `C` are `A`,
both tails traverse as `[2, 1]`, and `A` itself still traverses as
`[2, 1]`. -/
theorem push_preserves_shared_tail :
    (∀ (T : Type) (L : ConstList T) (v : T), ((L.push v).pop).2 = L) ∧
    (listB.pop).2 = listA ∧ (listC.pop).2 = listA ∧
    ConstListIterator.collect 10 (ConstList.iter (listB.pop).2) = [2, 1] ∧
    ConstListIterator.collect 10 (ConstList.iter (listC.pop).2) = [2, 1] ∧
    ConstListIterator.collect 10 (ConstList.iter listA) = [2, 1] :=
  ⟨fun T L v => rfl, rfl, rfl, rfl, rfl, rfl⟩

/-- C8: `get` terminates for every list and every index: the recursive
descent reaches its answer (the empty list when the index is too large)
in at most `len + 1` calls, so any recursion-depth budget exceeding the
length makes the fuelled descent return, and it returns `get`. -/
theorem get_terminates {T : Type} (L : ConstList T) (i fuel : Nat) (h : L.len < fuel) :
    ConstList.getFuel fuel L i = some (L.get i) := by
  induction L generalizing i fuel with
  | nil =>
      cases fuel with
      | zero => simp [ConstList.len] at h
      | succ f => rfl
  | cons a r ih =>
      cases fuel with
      | zero => simp [ConstList.len] at h
      | succ f =>
          by_cases hi : i = 0
          · subst hi
            rfl
          · simp only [ConstList.getFuel, ConstList.get, if_neg hi]
            apply ih
            simp [ConstList.len] at h
            omega

/-- Witness for C8 at the concrete list `[2, 1]`, index `7`, fuel `3`. -/
theorem get_terminates_witness :
    listA.len < 3 ∧ ConstList.getFuel 3 listA 7 = some (listA.get 7) :=
  ⟨by decide, get_terminates listA 7 3 (by decide)⟩

/-- C9: `is_empty` is true exactly when `len` is zero, and the list
returned by `new` is empty with length zero. -/
theorem is_empty_iff_len_zero :
    (∀ (T : Type) (L : ConstList T), L.is_empty = true ↔ L.len = 0) ∧
    (∀ (T : Type), (ConstList.new : ConstList T).is_empty = true) ∧
    (∀ (T : Type), (ConstList.new : ConstList T).len = 0) := by
  refine ⟨?_, fun T => rfl, fun T => rfl⟩
  intro T L
  cases L <;> simp [ConstList.is_empty, ConstList.len]

/-- C10: the iterator is fused: the `(j+1)`-st call to `next` on a fresh
iterator over `L` yields an element exactly when `j < L.len`, so the
iterator yields exactly `L.len` elements and every later call (after the
first `none`) returns `none` forever. -/
theorem iter_fused {T : Type} (L : ConstList T) (j : Nat) :
    ((((ConstList.iter L).nextN j).next).1).isSome ↔ j < L.len := by
  rw [ConstListIterator.yield_eq_get]
  exact ConstList.get_isSome_iff L j
